import Mathlib

/-!
Verification development for the NHL-Beyond-27 repository.

The definitions below are shallow embeddings of the Python functions of the
repository (pandas dataframes become lists of typed rows, SQL expressions
become functions on Option-valued rationals, NULL becomes Option.none).
Each claim about the program is then settled by a theorem about these
definitions.

Sources embedded here:
  - time_utils.py               (yyyy_to_season, seconds_to_hms)
  - align_age25_age29.py        (parse_start_year)
  - build_player_streaks_and_aligned.py
                                (season_to_start_year, streaks_from_years,
                                 the streak selection and the age 25..29
                                 aligned-window construction in main)
  - build_ref_hockey.py         (fix_std_one_file with _NTM_RE, _mode_or_first,
                                 _post_name_normalization)
  - build_player_five_year_aligned_z.py / _z_cohort.py
                                (the Z_SELECT CASE/COALESCE/NULLIF arithmetic,
                                 build_z_replace, build_z_upsert)
-/

namespace NHL

/-! ## Season / year parsing -/

/-- Numeric value of a decimal digit character, as Python int() of the char. -/
def digitVal (c : Char) : Nat := c.toNat - 48

/-- Value of a string of decimal digits (Python int on a digit string). -/
def digitsVal (l : List Char) : Nat := l.foldl (fun a c => 10 * a + digitVal c) 0

/-- Full match of the regex \d{2}-\d{2}. -/
def matchYYdashYY : List Char → Bool
  | [a, b, h, c, d] => a.isDigit && b.isDigit && (h = '-') && c.isDigit && d.isDigit
  | _ => false

/-- Full match of the regex \d{4}-\d{2}. -/
def matchYYYYdashYY : List Char → Bool
  | [a, b, c, d, h, e, f] =>
      a.isDigit && b.isDigit && c.isDigit && d.isDigit && (h = '-') && e.isDigit && f.isDigit
  | _ => false

/-- Full match of the regex \d{8}. -/
def matchD8 (l : List Char) : Bool := (l.length = 8 : Bool) && l.all Char.isDigit

/-- Full match of the regex \d{4}. -/
def matchD4 (l : List Char) : Bool := (l.length = 4 : Bool) && l.all Char.isDigit

/-- align_age25_age29.parse_start_year: derive a season start year from
'YY-YY', 'YYYY-YY', 'YYYYYYYY' or 'YYYY'; None for any other shape. -/
def parse_start_year (s : List Char) : Option Int :=
  if matchYYdashYY s then some (2000 + (digitsVal (s.take 2) : Int))
  else if matchYYYYdashYY s then some (digitsVal (s.take 4) : Int)
  else if matchD8 s then some (digitsVal (s.take 4) : Int)
  else if matchD4 s then some (digitsVal s : Int)
  else none

/-- build_player_streaks_and_aligned.season_to_start_year: only accepts
'YY-YY' and splits the century at 50 (yy >= 50 means the 1900s). -/
def season_to_start_year (s : List Char) : Option Int :=
  if matchYYdashYY s then
    let yy : Int := digitsVal (s.take 2)
    some (if 50 ≤ yy then 1900 + yy else 2000 + yy)
  else none

/-- Python f-string "%02d" rendering for 0 ≤ n < 100. -/
def twoDigitChars (n : Int) : List Char :=
  [Char.ofNat (48 + ((n / 10) % 10).toNat), Char.ofNat (48 + (n % 10).toNat)]

/-- time_utils.yyyy_to_season: map a 4-digit season-end year to 'YY-YY'.
int(str(yyyy)[:4]) is the value of the first four decimal digits. -/
def yyyy_to_season (yyyy : Nat) : List Char :=
  let y : Int := digitsVal ((Nat.toDigits 10 yyyy).take 4)
  twoDigitChars ((y - 1) % 100) ++ '-' :: twoDigitChars (y % 100)

/-! ## Z-score arithmetic (the SQL Z_SELECT of both z builders)

The per-row arithmetic of Z_SELECT (build_player_five_year_aligned_z.py)
and Z_SELECT_COHORT (build_player_five_year_aligned_z_cohort.py) is the
same CASE/COALESCE/NULLIF expression; only the window partition differs.
NULL is Option.none. -/

/-- CASE WHEN std IS NULL OR std=0 THEN NULL ELSE (v-avg)/std END with SQL
NULL propagation through the subtraction and division. -/
def sqlZ (std v avg : Option ℚ) : Option ℚ :=
  match std with
  | none => none
  | some s =>
      if s = 0 then none
      else
        match v, avg with
        | some x, some m => some ((x - m) / s)
        | _, _ => none

/-- CASE WHEN std IS NULL OR std=0 THEN 0 ELSE 1 END, the denominator
contribution of one statistic in the spicy score. -/
def stdValid (std : Option ℚ) : Bool :=
  match std with
  | none => false
  | some s => !(s = 0 : Bool)

/-- The spicy_score expression of Z_SELECT: COALESCE each z to 0 in the sum,
divide by NULLIF(number of statistics with a valid stddev, 0). -/
def spicy_score (std1 v1 avg1 std2 v2 avg2 std3 v3 avg3 : Option ℚ) : Option ℚ :=
  let num : ℚ := (sqlZ std1 v1 avg1).getD 0 + (sqlZ std2 v2 avg2).getD 0
      - (sqlZ std3 v3 avg3).getD 0
  let den : ℚ := (if stdValid std1 then 1 else 0) + (if stdValid std2 then 1 else 0)
      + (if stdValid std3 then 1 else 0)
  if den = 0 then none else some (num / den)

/-- The composite score as the spec words it: sum of the three z components
with null contributing 0, divided by the count of NON-NULL z components,
null when all three components are null. -/
def spicy_score_spec (z1 z2 z3 : Option ℚ) : Option ℚ :=
  let num : ℚ := z1.getD 0 + z2.getD 0 - z3.getD 0
  let den : ℚ := (if z1.isSome then 1 else 0) + (if z2.isSome then 1 else 0)
      + (if z3.isSome then 1 else 0)
  if den = 0 then none else some (num / den)

/-- The non-null inputs of an SQL aggregate over a column. -/
def nonNullValues (vals : List (Option ℚ)) : List ℚ := vals.reduceOption

/-- AVG over the non-null inputs. -/
def sampleMean (xs : List ℚ) : ℚ := xs.sum / (xs.length : ℚ)

/-- The square of STDDEV_SAMP: NULL (none) when fewer than two non-null
inputs, otherwise the sum of squared deviations over n-1. Working with the
square keeps the embedding rational; STDDEV_SAMP itself is its nonnegative
square root, which is null exactly when this is none and zero exactly when
this is some 0. -/
def stddevSampSq (vals : List (Option ℚ)) : Option ℚ :=
  let xs := nonNullValues vals
  if xs.length < 2 then none
  else some ((xs.map (fun x => (x - sampleMean xs) * (x - sampleMean xs))).sum
      / ((xs.length : ℚ) - 1))

/-- std is the STDDEV_SAMP of vals: both null together, and otherwise std is
the nonnegative square root of the sample variance. -/
def stddevMatches (vals : List (Option ℚ)) (std : Option ℚ) : Bool :=
  match std, stddevSampSq vals with
  | none, none => true
  | some s, some v2 => decide (0 ≤ s) && decide (s * s = v2)
  | _, _ => false

/-! ## Theorems: season resolution (C5, C10) -/

theorem digitsVal_two (a b : Char) :
    digitsVal [a, b] = 10 * digitVal a + digitVal b := by
  simp [digitsVal, List.foldl]

/-- C5 counterexample: the claim says every 'YY-YY' label resolves to
2000 + YY, but season_to_start_year resolves "99-00" to 1999, not 2099. -/
theorem c5_counterexample :
    season_to_start_year ("99-00".toList) = some 1999 ∧ (1999 : Int) ≠ 2000 + 99 := by
  constructor
  · decide
  · decide

/-- C5 (amended): parse_start_year maps every 'YY-YY' label to 2000 + YY and
satisfies all four round-trip examples, while season_to_start_year maps
'YY-YY' to 2000 + YY only for YY < 50 and to 1900 + YY for YY ≥ 50. -/
theorem c5_season_resolver (a b c d : Char)
    (ha : a.isDigit = true) (hb : b.isDigit = true)
    (hc : c.isDigit = true) (hd : d.isDigit = true) :
    parse_start_year [a, b, '-', c, d]
        = some (2000 + (10 * digitVal a + digitVal b : Int))
    ∧ season_to_start_year [a, b, '-', c, d]
        = some (if 50 ≤ (10 * digitVal a + digitVal b : Int)
                then 1900 + (10 * digitVal a + digitVal b : Int)
                else 2000 + (10 * digitVal a + digitVal b : Int))
    ∧ parse_start_year ("13-14".toList) = some 2013
    ∧ parse_start_year ("2013-14".toList) = some 2013
    ∧ parse_start_year ("20132014".toList) = some 2013
    ∧ parse_start_year ("2014".toList) = some 2014 := by
  have hmatch : matchYYdashYY [a, b, '-', c, d] = true := by
    simp [matchYYdashYY, ha, hb, hc, hd]
  refine ⟨?_, ?_, by decide, by decide, by decide, by decide⟩
  · simp only [parse_start_year, hmatch, if_true, List.take, digitsVal_two]
    push_cast
    ring_nf
  · simp only [season_to_start_year, hmatch, if_true, List.take, digitsVal_two]
    push_cast
    ring_nf

theorem c5_season_resolver_witness :
    parse_start_year [('1' : Char), '3', '-', '1', '4'] = some (2000 + (10 * digitVal '1' + digitVal '3' : Int)) := by
  exact (c5_season_resolver '1' '3' '1' '4' (by decide) (by decide) (by decide) (by decide)).1

set_option maxRecDepth 20000 in
/-- C10: for 2001 ≤ y ≤ 2099, parse_start_year (yyyy_to_season y) = y - 1:
yyyy_to_season reads y as the season end year, so resolving the emitted
'YY-YY' label subtracts exactly one year. -/
theorem c10_yyyy_roundtrip (y : Nat) (h1 : 2001 ≤ y) (h2 : y ≤ 2099) :
    parse_start_year (yyyy_to_season y) = some ((y : Int) - 1) := by
  have key : ∀ z ∈ Finset.Icc (2001 : Nat) 2099,
      parse_start_year (yyyy_to_season z) = some ((z : Int) - 1) := by decide
  exact key y (Finset.mem_Icc.mpr ⟨h1, h2⟩)

theorem c10_yyyy_roundtrip_witness :
    parse_start_year (yyyy_to_season 2014) = some ((2014 : Int) - 1) := by
  exact c10_yyyy_roundtrip 2014 (by norm_num) (by norm_num)

/-! ## Theorems: z-scores and the composite score (C7, C8) -/

theorem sqlZ_isSome_eq_stdValid (std v avg : Option ℚ)
    (h : stdValid std = true → v.isSome ∧ avg.isSome) :
    (sqlZ std v avg).isSome = stdValid std := by
  cases std with
  | none => rfl
  | some s =>
    by_cases hs : s = 0
    · simp [sqlZ, stdValid, hs]
    · obtain ⟨hv, ha⟩ := h (by simp [stdValid, hs])
      obtain ⟨x, rfl⟩ := Option.isSome_iff_exists.mp hv
      obtain ⟨m, rfl⟩ := Option.isSome_iff_exists.mp ha
      simp [sqlZ, stdValid, hs]

/-- C7 counterexample: with a valid cf_pct stddev but a NULL cf_pct value
(z null), a cf60 z of 3 and a degenerate ca60 stddev, the code divides by 2
(count of valid stddevs) giving 3/2, while the claim's rule (divide by the
count of non-null z components) gives 3/1 = 3. -/
theorem c7_counterexample :
    spicy_score (some 1) none (some 0) (some 1) (some 3) (some 0) none none none
      = some (3 / 2)
    ∧ spicy_score_spec (sqlZ (some 1) none (some 0)) (sqlZ (some 1) (some 3) (some 0))
        (sqlZ none none none) = some 3
    ∧ ((3 : ℚ) / 2) ≠ 3 := by
  refine ⟨?_, ?_, by norm_num⟩
  · norm_num [spicy_score, sqlZ, stdValid]
  · norm_num [spicy_score_spec, sqlZ]

/-- C7 (amended): the composite divides by the count of statistics whose
population stddev is non-null and nonzero; whenever every such statistic has
a non-null value and mean (so z nullness coincides with stddev invalidity),
this equals the claim's average over non-null z components. -/
theorem c7_spicy_composite (std1 v1 avg1 std2 v2 avg2 std3 v3 avg3 : Option ℚ)
    (h1 : stdValid std1 = true → v1.isSome ∧ avg1.isSome)
    (h2 : stdValid std2 = true → v2.isSome ∧ avg2.isSome)
    (h3 : stdValid std3 = true → v3.isSome ∧ avg3.isSome) :
    spicy_score std1 v1 avg1 std2 v2 avg2 std3 v3 avg3
      = spicy_score_spec (sqlZ std1 v1 avg1) (sqlZ std2 v2 avg2) (sqlZ std3 v3 avg3) := by
  simp only [spicy_score, spicy_score_spec,
    sqlZ_isSome_eq_stdValid std1 v1 avg1 h1,
    sqlZ_isSome_eq_stdValid std2 v2 avg2 h2,
    sqlZ_isSome_eq_stdValid std3 v3 avg3 h3]

/-- Realizes the claim's example through the amended theorem: z components
3, 1 and null (null via a degenerate stddev) give (3 + 1 - 0)/2 = 2. -/
theorem c7_spicy_composite_witness :
    spicy_score (some 1) (some 3) (some 0) (some 1) (some 1) (some 0) none none none
      = some 2 := by
  have h := c7_spicy_composite (some 1) (some 3) (some 0) (some 1) (some 1) (some 0)
    none none none (by simp) (by simp) (by simp [stdValid])
  refine h.trans ?_
  norm_num [spicy_score_spec, sqlZ]

/-- C8: when the sample stddev is null (fewer than 2 non-null inputs) or
exactly zero (in particular when all non-null inputs are identical), the
z-score is null — never a division by zero; otherwise it is
(value − mean) / stddev. -/
theorem c8_zero_stddev_guard (vals : List (Option ℚ)) (std v avg : Option ℚ) (c : ℚ)
    (hm : stddevMatches vals std = true) :
    ((nonNullValues vals).length < 2 → std = none ∧ sqlZ std v avg = none)
    ∧ ((∀ x ∈ nonNullValues vals, x = c) → sqlZ std v avg = none)
    ∧ (∀ s x m : ℚ, std = some s → s ≠ 0 →
        sqlZ std (some x) (some m) = some ((x - m) / s)) := by
  refine ⟨?_, ?_, ?_⟩
  · intro hlen
    have hnone : stddevSampSq vals = none := by
      simp only [stddevSampSq]
      rw [if_pos hlen]
    have hstd : std = none := by
      cases std with
      | none => rfl
      | some s =>
        exfalso
        simp only [stddevMatches, hnone] at hm
        exact Bool.false_ne_true hm
    exact ⟨hstd, by rw [hstd]; rfl⟩
  · intro hall
    rcases Nat.lt_or_ge (nonNullValues vals).length 2 with hlen | hlen
    · have hnone : stddevSampSq vals = none := by
        simp only [stddevSampSq]
        rw [if_pos hlen]
      have hstd : std = none := by
        cases std with
        | none => rfl
        | some s =>
          exfalso
          simp only [stddevMatches, hnone] at hm
          exact Bool.false_ne_true hm
      rw [hstd]; rfl
    · have hlen' : ¬ (nonNullValues vals).length < 2 := Nat.not_lt.mpr hlen
      have hmean : sampleMean (nonNullValues vals) = c := by
        have hsum : (nonNullValues vals).sum = (nonNullValues vals).length • c :=
          List.sum_eq_card_nsmul _ _ hall
        have hne : ((nonNullValues vals).length : ℚ) ≠ 0 := by
          have hp : 0 < (nonNullValues vals).length := by omega
          exact Nat.cast_ne_zero.mpr hp.ne'
        rw [sampleMean, hsum, nsmul_eq_mul, mul_comm, mul_div_assoc, div_self hne, mul_one]
      have hvar : stddevSampSq vals = some 0 := by
        simp only [stddevSampSq]
        rw [if_neg hlen']
        have hz : ((nonNullValues vals).map
            (fun x => (x - sampleMean (nonNullValues vals))
              * (x - sampleMean (nonNullValues vals)))).sum = 0 := by
          apply List.sum_eq_zero
          intro q hq
          obtain ⟨x, hx, rfl⟩ := List.mem_map.mp hq
          rw [hmean, hall x hx, sub_self, mul_zero]
        rw [hz, zero_div]
      cases std with
      | none => rfl
      | some s =>
        simp only [stddevMatches, hvar, Bool.and_eq_true, decide_eq_true_eq] at hm
        have hs0 : s = 0 := mul_self_eq_zero.mp hm.2
        rw [hs0]
        simp [sqlZ]
  · intro s x m hstd hs
    rw [hstd]
    simp [sqlZ, hs]

theorem c8_zero_stddev_guard_witness :
    sqlZ (some 5) (some 10) (some 5) = some ((10 - 5) / 5 : ℚ) := by
  have hm : stddevMatches [some 0, some 5, some 10] (some 5) = true := by
    have hv : stddevSampSq [some 0, some 5, some 10] = some 25 := by
      norm_num [stddevSampSq, nonNullValues, sampleMean, List.reduceOption,
        List.filterMap_cons, List.length_cons]
    simp only [stddevMatches, hv]
    norm_num
  exact (c8_zero_stddev_guard [some 0, some 5, some 10] (some 5) (some 10) (some 5) 0
    hm).2.2 5 10 5 rfl (by norm_num)

/-! ## Streak finder (build_player_streaks_and_aligned.py) -/

/-- One maximal run of consecutive years: (start_year, end_year, length). -/
structure Run where
  start : Int
  stop : Int
  len : Int
deriving DecidableEq

/-- Python sorted(set(years)): ascending, duplicates removed. -/
def sortedUnique (years : List Int) : List Int :=
  List.insertionSort (· ≤ ·) years.dedup

/-- The scan loop of streaks_from_years: runS is the start of the open run,
prev the last year added to it. -/
def streaksAux (runS prev : Int) : List Int → List Run
  | [] => [⟨runS, prev, prev - runS + 1⟩]
  | y :: ys =>
      if y = prev + 1 then streaksAux runS y ys
      else ⟨runS, prev, prev - runS + 1⟩ :: streaksAux y y ys

/-- streaks_from_years: maximal consecutive runs of the distinct years,
in increasing order of start year. -/
def streaks_from_years (years : List Int) : List Run :=
  match sortedUnique years with
  | [] => []
  | y :: ys => streaksAux y y ys

/-- Python max(runs, key=length): keeps the first element attaining the
maximal key (a later element replaces the current best only when strictly
greater). -/
def maxByLen : List Run → Option Run
  | [] => none
  | r :: rs =>
      match maxByLen rs with
      | none => some r
      | some b => some (if b.len > r.len then b else r)

/-- The streak selection of main: take the longest run (first wins ties) and
report it only when its length is at least 5. -/
def reportStreak (years : List Int) : Option Run :=
  match maxByLen (streaks_from_years years) with
  | none => none
  | some r => if 5 ≤ r.len then some r else none

theorem maxByLen_eq_none (l : List Run) (h : maxByLen l = none) : l = [] := by
  cases l with
  | nil => rfl
  | cons a rest =>
    rw [maxByLen] at h
    cases hrest : maxByLen rest with
    | none => rw [hrest] at h; exact absurd h (by simp)
    | some b => rw [hrest] at h; exact absurd h (by simp)

theorem maxByLen_mem_and_ge (l : List Run) (r : Run) (h : maxByLen l = some r) :
    r ∈ l ∧ ∀ x ∈ l, x.len ≤ r.len := by
  induction l generalizing r with
  | nil => simp [maxByLen] at h
  | cons a rest ih =>
    rw [maxByLen] at h
    cases hrest : maxByLen rest with
    | none =>
      rw [hrest] at h
      have hnil := maxByLen_eq_none rest hrest
      subst hnil
      simp only [Option.some.injEq] at h
      subst h
      exact ⟨List.mem_cons_self _ _, by intro x hx; simp at hx; subst hx; exact le_refl _⟩
    | some b =>
      rw [hrest] at h
      simp only [Option.some.injEq] at h
      obtain ⟨hb, hball⟩ := ih b hrest
      by_cases hgt : b.len > a.len
      · rw [if_pos hgt] at h
        subst h
        refine ⟨List.mem_cons_of_mem _ hb, ?_⟩
        intro x hx
        rcases List.mem_cons.mp hx with rfl | hx
        · exact le_of_lt hgt
        · exact hball x hx
      · rw [if_neg hgt] at h
        subst h
        refine ⟨List.mem_cons_self _ _, ?_⟩
        intro x hx
        rcases List.mem_cons.mp hx with rfl | hx
        · exact le_refl _
        · exact le_trans (hball x hx) (not_lt.mp hgt)

theorem maxByLen_first_of_ties (l : List Run) (r : Run)
    (hsorted : l.Pairwise (fun a b => a.start < b.start))
    (h : maxByLen l = some r) :
    ∀ x ∈ l, x.len = r.len → r.start ≤ x.start := by
  induction l generalizing r with
  | nil => simp [maxByLen] at h
  | cons a rest ih =>
    rw [List.pairwise_cons] at hsorted
    obtain ⟨ha, hrest_sorted⟩ := hsorted
    rw [maxByLen] at h
    cases hrest : maxByLen rest with
    | none =>
      rw [hrest] at h
      simp only [Option.some.injEq] at h
      subst h
      intro x hx _
      rcases List.mem_cons.mp hx with rfl | hx
      · exact le_refl _
      · exact le_of_lt (ha x hx)
    | some b =>
      rw [hrest] at h
      simp only [Option.some.injEq] at h
      by_cases hgt : b.len > a.len
      · rw [if_pos hgt] at h
        subst h
        intro x hx hlen
        rcases List.mem_cons.mp hx with rfl | hx
        · exact absurd hlen (by intro hc; rw [hc] at hgt; exact lt_irrefl _ hgt)
        · exact ih b hrest_sorted hrest x hx hlen
      · rw [if_neg hgt] at h
        subst h
        intro x hx _
        rcases List.mem_cons.mp hx with rfl | hx
        · exact le_refl _
        · exact le_of_lt (ha x hx)

theorem streaksAux_start_ge (ys : List Int) (runS prev : Int)
    (hchain : List.Chain (· < ·) prev ys) (hrs : runS ≤ prev) :
    ∀ r ∈ streaksAux runS prev ys, runS ≤ r.start := by
  induction ys generalizing runS prev with
  | nil =>
    intro r hr
    simp only [streaksAux, List.mem_singleton] at hr
    subst hr
    exact le_refl _
  | cons y ys ih =>
    rw [List.chain_cons] at hchain
    obtain ⟨hpy, hchain'⟩ := hchain
    intro r hr
    rw [streaksAux] at hr
    by_cases hy : y = prev + 1
    · rw [if_pos hy] at hr
      exact ih runS y hchain' (by omega) r hr
    · rw [if_neg hy] at hr
      rcases List.mem_cons.mp hr with rfl | hr
      · exact le_refl _
      · have := ih y y hchain' (le_refl y) r hr
        omega

theorem streaksAux_sorted (ys : List Int) (runS prev : Int)
    (hchain : List.Chain (· < ·) prev ys) (hrs : runS ≤ prev) :
    (streaksAux runS prev ys).Pairwise (fun a b => a.start < b.start) := by
  induction ys generalizing runS prev with
  | nil => simp [streaksAux]
  | cons y ys ih =>
    rw [List.chain_cons] at hchain
    obtain ⟨hpy, hchain'⟩ := hchain
    rw [streaksAux]
    by_cases hy : y = prev + 1
    · rw [if_pos hy]
      exact ih runS y hchain' (by omega)
    · rw [if_neg hy]
      rw [List.pairwise_cons]
      refine ⟨?_, ih y y hchain' (le_refl y)⟩
      intro r hr
      have := streaksAux_start_ge ys y y hchain' (le_refl y) r hr
      have hlt : runS < y := by omega
      simpa using lt_of_lt_of_le hlt this

theorem streaks_sorted (years : List Int) :
    (streaks_from_years years).Pairwise (fun a b => a.start < b.start) := by
  rw [streaks_from_years]
  have hsorted : (sortedUnique years).Sorted (· ≤ ·) :=
    List.sorted_insertionSort _ _
  have hnodup : (sortedUnique years).Nodup :=
    (List.perm_insertionSort _ _).nodup_iff.mpr years.nodup_dedup
  have hlt : (sortedUnique years).Pairwise (· < ·) := by
    have hand := List.Pairwise.and hsorted hnodup
    exact hand.imp (fun hab => lt_of_le_of_ne hab.1 hab.2)
  cases hsu : sortedUnique years with
  | nil => simp
  | cons y ys =>
    rw [hsu] at hlt
    have hchain : List.Chain (· < ·) y ys := List.chain'_iff_pairwise.mpr hlt
    exact streaksAux_sorted ys y y hchain (le_refl y)

/-- C6: the streak finder reports the maximal-length run, ties broken in
favor of the earliest-starting run, and only when its length is at least 5;
on [2010,2011,2012,2015..2019] it reports (2015,2019,5), and a longest run
of length 4 is never reported. -/
theorem c6_streak_finder (ys : List Int) (r : Run) (h : reportStreak ys = some r) :
    (r ∈ streaks_from_years ys
      ∧ 5 ≤ r.len
      ∧ (∀ x ∈ streaks_from_years ys, x.len ≤ r.len)
      ∧ (∀ x ∈ streaks_from_years ys, x.len = r.len → r.start ≤ x.start))
    ∧ reportStreak [2010, 2011, 2012, 2015, 2016, 2017, 2018, 2019]
        = some ⟨2015, 2019, 5⟩
    ∧ reportStreak [2010, 2011, 2012, 2013] = none := by
  refine ⟨?_, by decide, by decide⟩
  cases hmax : maxByLen (streaks_from_years ys) with
  | none =>
    simp only [reportStreak, hmax] at h
    exact absurd h (by simp)
  | some b =>
    simp only [reportStreak, hmax] at h
    by_cases h5 : 5 ≤ b.len
    · rw [if_pos h5] at h
      simp only [Option.some.injEq] at h
      subst h
      obtain ⟨hmem, hge⟩ := maxByLen_mem_and_ge _ _ hmax
      exact ⟨hmem, h5, hge, maxByLen_first_of_ties _ _ (streaks_sorted ys) hmax⟩
    · rw [if_neg h5] at h
      exact absurd h (by simp)

theorem c6_streak_finder_witness :
    reportStreak [2010, 2011, 2012, 2015, 2016, 2017, 2018, 2019]
        = some ⟨2015, 2019, 5⟩
    ∧ (⟨2015, 2019, 5⟩ : Run) ∈ streaks_from_years [2010, 2011, 2012, 2015, 2016, 2017, 2018, 2019] := by
  have h := c6_streak_finder [2010, 2011, 2012, 2015, 2016, 2017, 2018, 2019]
    ⟨2015, 2019, 5⟩ (by decide)
  exact ⟨h.2.1, h.1.1⟩

/-! ## Alignment engine (build_player_streaks_and_aligned.main, step 6)

Per player, the script builds a map age -> (earliest start year, metrics)
over ages 25..29, requires all five ages, requires every season ice time
positive and the five-season average at least 500 minutes, anchors at the
age-27 start year and emits five rows with rel_age = age - 27. -/

/-- The per-season metrics dict entry of main (step 4). -/
structure Metrics where
  season : String
  age : Option Int
  cf_pct : Option ℚ
  cf60 : Option ℚ
  ca60 : Option ℚ
  toi_min : Option ℚ
  position : Option String
deriving DecidableEq

/-- One row of the player_five_year_aligned batch. -/
structure AlignedRow where
  player : String
  peak_year : Int
  rel_age : Int
  start_year : Int
  season : String
  age : Int
  cf_pct : Option ℚ
  cf60 : Option ℚ
  ca60 : Option ℚ
  position : Option String
deriving DecidableEq

/-- metrics.get((p, y)) on the player's metrics dict (keys are unique). -/
def lookupMetrics (ms : List (Int × Metrics)) (y : Int) : Option Metrics :=
  (ms.find? (fun e => e.1 == y)).map (fun e => e.2)

/-- One iteration of the by_age construction: for a start year y (visited in
ascending order), record age -> (y, metrics) if the age is 25..29 and not
seen yet. -/
def byAgeStep (ms : List (Int × Metrics)) (acc : List (Int × Int × Metrics)) (y : Int) :
    List (Int × Int × Metrics) :=
  match lookupMetrics ms y with
  | none => acc
  | some m =>
      match m.age with
      | none => acc
      | some a =>
          if 25 ≤ a ∧ a ≤ 29 then
            if (acc.find? (fun e => e.1 == a)).isSome then acc
            else acc ++ [(a, y, m)]
          else acc

/-- by_age: iterate the step over sorted(set(years)). -/
def buildByAge (ms : List (Int × Metrics)) (years : List Int) :
    List (Int × Int × Metrics) :=
  (sortedUnique years).foldl (byAgeStep ms) []

/-- by_age[a]: the (start_year, metrics) recorded for age a. -/
def lookupAge (byAge : List (Int × Int × Metrics)) (a : Int) : Option (Int × Metrics) :=
  (byAge.find? (fun e => e.1 == a)).map (fun e => e.2)

/-- Python "t is None or t <= 0" on a season ice time. -/
def badToi (t : Option ℚ) : Bool :=
  match t with
  | none => true
  | some q => decide (q ≤ 0)

/-- One emitted aligned row: anchor is the age-27 start year, rel_age the
offset from 27; the rate statistics are carried over from the metrics. -/
def mkAligned (p : String) (anchor a y : Int) (m : Metrics) : AlignedRow :=
  ⟨p, anchor, a - 27, y, m.season, a, m.cf_pct, m.cf60, m.ca60, m.position⟩

/-- The aligned rows one player contributes (all-or-nothing window). -/
def alignedRowsFor (p : String) (ms : List (Int × Metrics)) (years : List Int) :
    List AlignedRow :=
  let byAge := buildByAge ms years
  match lookupAge byAge 25, lookupAge byAge 26, lookupAge byAge 27,
      lookupAge byAge 28, lookupAge byAge 29 with
  | some e25, some e26, some e27, some e28, some e29 =>
      let tois := [e25.2.toi_min, e26.2.toi_min, e27.2.toi_min, e28.2.toi_min, e29.2.toi_min]
      if tois.any badToi then []
      else if (tois.map (fun t => t.getD 0)).sum / 5 < 500 then []
      else [mkAligned p e27.1 25 e25.1 e25.2, mkAligned p e27.1 26 e26.1 e26.2,
            mkAligned p e27.1 27 e27.1 e27.2, mkAligned p e27.1 28 e28.1 e28.2,
            mkAligned p e27.1 29 e29.1 e29.2]
  | _, _, _, _, _ => []

/-- C4: a player contributes exactly 0 or exactly 5 aligned rows; with all
five ages present, all ice times positive and their average at least 500,
exactly the five rows with rel_age -2..2 anchored at the age-27 start year
are emitted; a missing age, a non-positive or missing ice time, or an
average below 500 gives 0 rows. -/
theorem c4_alignment_window (p : String) (ms : List (Int × Metrics)) (years : List Int) :
    ((alignedRowsFor p ms years).length = 0 ∨ (alignedRowsFor p ms years).length = 5)
    ∧ (∀ e25 e26 e27 e28 e29 : Int × Metrics,
        lookupAge (buildByAge ms years) 25 = some e25 →
        lookupAge (buildByAge ms years) 26 = some e26 →
        lookupAge (buildByAge ms years) 27 = some e27 →
        lookupAge (buildByAge ms years) 28 = some e28 →
        lookupAge (buildByAge ms years) 29 = some e29 →
        badToi e25.2.toi_min = false → badToi e26.2.toi_min = false →
        badToi e27.2.toi_min = false → badToi e28.2.toi_min = false →
        badToi e29.2.toi_min = false →
        ¬ ([e25.2.toi_min, e26.2.toi_min, e27.2.toi_min, e28.2.toi_min,
            e29.2.toi_min].map (fun t => t.getD 0)).sum / 5 < 500 →
        alignedRowsFor p ms years
            = [mkAligned p e27.1 25 e25.1 e25.2, mkAligned p e27.1 26 e26.1 e26.2,
               mkAligned p e27.1 27 e27.1 e27.2, mkAligned p e27.1 28 e28.1 e28.2,
               mkAligned p e27.1 29 e29.1 e29.2]
          ∧ (alignedRowsFor p ms years).map (fun r => r.rel_age) = [-2, -1, 0, 1, 2]
          ∧ ∀ r ∈ alignedRowsFor p ms years, r.peak_year = e27.1)
    ∧ ((lookupAge (buildByAge ms years) 25 = none
        ∨ lookupAge (buildByAge ms years) 26 = none
        ∨ lookupAge (buildByAge ms years) 27 = none
        ∨ lookupAge (buildByAge ms years) 28 = none
        ∨ lookupAge (buildByAge ms years) 29 = none) →
        alignedRowsFor p ms years = [])
    ∧ (∀ e25 e26 e27 e28 e29 : Int × Metrics,
        lookupAge (buildByAge ms years) 25 = some e25 →
        lookupAge (buildByAge ms years) 26 = some e26 →
        lookupAge (buildByAge ms years) 27 = some e27 →
        lookupAge (buildByAge ms years) 28 = some e28 →
        lookupAge (buildByAge ms years) 29 = some e29 →
        (([e25.2.toi_min, e26.2.toi_min, e27.2.toi_min, e28.2.toi_min,
            e29.2.toi_min].any badToi) = true
          ∨ ([e25.2.toi_min, e26.2.toi_min, e27.2.toi_min, e28.2.toi_min,
              e29.2.toi_min].map (fun t => t.getD 0)).sum / 5 < 500) →
        alignedRowsFor p ms years = []) := by
  refine ⟨?_, ?_, ?_, ?_⟩
  · rcases hh25 : lookupAge (buildByAge ms years) 25 with _ | e25
    · left; simp [alignedRowsFor, hh25]
    rcases hh26 : lookupAge (buildByAge ms years) 26 with _ | e26
    · left; simp [alignedRowsFor, hh25, hh26]
    rcases hh27 : lookupAge (buildByAge ms years) 27 with _ | e27
    · left; simp [alignedRowsFor, hh25, hh26, hh27]
    rcases hh28 : lookupAge (buildByAge ms years) 28 with _ | e28
    · left; simp [alignedRowsFor, hh25, hh26, hh27, hh28]
    rcases hh29 : lookupAge (buildByAge ms years) 29 with _ | e29
    · left; simp [alignedRowsFor, hh25, hh26, hh27, hh28, hh29]
    simp only [alignedRowsFor, hh25, hh26, hh27, hh28, hh29]
    split_ifs with hb1 hb2
    · left; rfl
    · left; rfl
    · right; rfl
  · intro e25 e26 e27 e28 e29 h25 h26 h27 h28 h29 t25 t26 t27 t28 t29 hsum
    have heq : alignedRowsFor p ms years
        = [mkAligned p e27.1 25 e25.1 e25.2, mkAligned p e27.1 26 e26.1 e26.2,
           mkAligned p e27.1 27 e27.1 e27.2, mkAligned p e27.1 28 e28.1 e28.2,
           mkAligned p e27.1 29 e29.1 e29.2] := by
      simp only [alignedRowsFor, h25, h26, h27, h28, h29]
      rw [if_neg (by simp [List.any_cons, List.any_nil, t25, t26, t27, t28, t29]),
        if_neg hsum]
    refine ⟨heq, ?_, ?_⟩
    · rw [heq]
      simp [mkAligned]
    · rw [heq]
      intro r hr
      simp only [List.mem_cons, List.not_mem_nil, or_false] at hr
      rcases hr with rfl | rfl | rfl | rfl | rfl <;> rfl
  · intro hnone
    simp only [alignedRowsFor]
    rcases h25 : lookupAge (buildByAge ms years) 25 with _ | e25 <;>
      rcases h26 : lookupAge (buildByAge ms years) 26 with _ | e26 <;>
        rcases h27 : lookupAge (buildByAge ms years) 27 with _ | e27 <;>
          rcases h28 : lookupAge (buildByAge ms years) 28 with _ | e28 <;>
            rcases h29 : lookupAge (buildByAge ms years) 29 with _ | e29 <;>
              first
                | rfl
                | (rcases hnone with h | h | h | h | h <;> simp_all)
  · intro e25 e26 e27 e28 e29 h25 h26 h27 h28 h29 hbad
    simp only [alignedRowsFor, h25, h26, h27, h28, h29]
    rcases hbad with hany | hlt
    · rw [if_pos hany]
    · by_cases hany : ([e25.2.toi_min, e26.2.toi_min, e27.2.toi_min, e28.2.toi_min,
          e29.2.toi_min].any badToi) = true
      · rw [if_pos hany]
      · rw [if_neg hany, if_pos hlt]

/-- Example metrics for the C4 witness: five seasons at ages 25..29 with
positive ice time averaging 600 minutes. -/
def exMetric (ssn : String) (a : Int) : Metrics :=
  ⟨ssn, some a, some 50, none, none, some 600, some "C"⟩

def exMs : List (Int × Metrics) :=
  [(2010, exMetric "10-11" 25), (2011, exMetric "11-12" 26), (2012, exMetric "12-13" 27),
   (2013, exMetric "13-14" 28), (2014, exMetric "14-15" 29)]

theorem c4_alignment_window_witness :
    alignedRowsFor "player a" exMs [2010, 2011, 2012, 2013, 2014]
      = [mkAligned "player a" 2012 25 2010 (exMetric "10-11" 25),
         mkAligned "player a" 2012 26 2011 (exMetric "11-12" 26),
         mkAligned "player a" 2012 27 2012 (exMetric "12-13" 27),
         mkAligned "player a" 2012 28 2013 (exMetric "13-14" 28),
         mkAligned "player a" 2012 29 2014 (exMetric "14-15" 29)] := by
  have h := (c4_alignment_window "player a" exMs [2010, 2011, 2012, 2013, 2014]).2.1
    (2010, exMetric "10-11" 25) (2011, exMetric "11-12" 26) (2012, exMetric "12-13" 27)
    (2013, exMetric "13-14" 28) (2014, exMetric "14-15" 29)
    (by decide) (by decide) (by decide) (by decide) (by decide)
    (by decide) (by decide) (by decide) (by decide) (by decide)
    (by norm_num [exMetric])
  exact h.1

/-! ## Z-table persistence modes (build_player_five_year_aligned_z.py)

build_z_replace runs TRUNCATE then INSERT {Z_SELECT}; build_z_upsert runs
INSERT {Z_SELECT} ON CONFLICT (player, peak_year, rel_age) DO UPDATE SET
every non-key column from EXCLUDED. Both insert the output of the same
Z_SELECT, modelled here as an arbitrary batch of rows; Postgres rejects a
batch that touches the same key twice in one upsert, so the batch keys are
assumed distinct. -/

/-- Primary key of the z table: (player, peak_year, rel_age). -/
structure ZKey where
  player : String
  peak_year : Int
  rel_age : Int
deriving DecidableEq

/-- One row of the z table: the key plus every non-key column. -/
structure ZRow where
  key : ZKey
  position : Option String
  start_year : Int
  season : String
  age : Option Int
  cf_pct : Option ℚ
  cf60 : Option ℚ
  ca60 : Option ℚ
  cf_pct_z : Option ℚ
  cf60_z : Option ℚ
  ca60_z : Option ℚ
  spicy : Option ℚ
deriving DecidableEq

/-- The row stored under a primary key (first match). -/
def lookupZ (t : List ZRow) (k : ZKey) : Option ZRow :=
  t.find? (fun r => r.key == k)

/-- build_z_replace applied to the Z_SELECT output: TRUNCATE discards the
prior contents, INSERT leaves exactly the computed batch. -/
def build_z_replace (prior rows : List ZRow) : List ZRow :=
  rows

/-- One INSERT .. ON CONFLICT DO UPDATE of a single row: an existing key has
all its non-key columns overwritten from EXCLUDED (the whole row becomes the
incoming row), a new key is appended. -/
def upsertOne (t : List ZRow) (r : ZRow) : List ZRow :=
  if t.any (fun x => x.key == r.key) then
    t.map (fun x => if x.key == r.key then r else x)
  else t ++ [r]

/-- build_z_upsert applied to the Z_SELECT output: fold the batch into the
prior contents. -/
def build_z_upsert (prior rows : List ZRow) : List ZRow :=
  rows.foldl upsertOne prior

theorem find?_cons_pos (p : ZRow → Bool) (a : ZRow) (l : List ZRow) (h : p a = true) :
    (a :: l).find? p = some a :=
  List.find?_cons_of_pos l h

theorem find?_cons_neg (p : ZRow → Bool) (a : ZRow) (l : List ZRow) (h : p a = false) :
    (a :: l).find? p = l.find? p :=
  List.find?_cons_of_neg l (by simp [h])

theorem lookupZ_upsertOne_self (t : List ZRow) (r : ZRow) :
    lookupZ (upsertOne t r) r.key = some r := by
  induction t with
  | nil => simp [upsertOne, lookupZ]
  | cons x xs ih =>
    by_cases hx : x.key = r.key
    · have hxb : (x.key == r.key) = true := by simp [hx]
      have hstep : upsertOne (x :: xs) r
          = r :: xs.map (fun y => if y.key == r.key then r else y) := by
        simp [upsertOne, List.any_cons, hxb, hx]
      rw [hstep, lookupZ, find?_cons_pos _ _ _ (by simp)]
    · have hxb : (x.key == r.key) = false := by simp [hx]
      by_cases hany : xs.any (fun y => y.key == r.key) = true
      · have hstep : upsertOne (x :: xs) r
            = x :: xs.map (fun y => if y.key == r.key then r else y) := by
          simp [upsertOne, List.any_cons, hxb, hany, hx]
        have hxs : upsertOne xs r
            = xs.map (fun y => if y.key == r.key then r else y) := by
          simp [upsertOne, hany]
        rw [hstep, lookupZ, find?_cons_neg _ _ _ (by simp [hxb]), ← lookupZ, ← hxs]
        exact ih
      · have hstep : upsertOne (x :: xs) r = x :: (xs ++ [r]) := by
          simp [upsertOne, List.any_cons, hxb, hany]
        have hxs : upsertOne xs r = xs ++ [r] := by
          simp [upsertOne, hany]
        rw [hstep, lookupZ, find?_cons_neg _ _ _ (by simp [hxb]), ← lookupZ, ← hxs]
        exact ih

theorem find?_map_keyNe (t : List ZRow) (r : ZRow) (k : ZKey) (hk : k ≠ r.key) :
    (t.map (fun x => if x.key == r.key then r else x)).find? (fun x => x.key == k)
      = t.find? (fun x => x.key == k) := by
  induction t with
  | nil => rfl
  | cons x xs ih =>
    by_cases hx : x.key = r.key
    · have hxb : (x.key == r.key) = true := by simp [hx]
      have hxk : ((x.key == k) : Bool) = false := by
        simp [hx]
        exact fun hc => hk hc.symm
      have hrk : ((r.key == k) : Bool) = false := by
        simp
        exact fun hc => hk hc.symm
      rw [List.map_cons, if_pos hxb, find?_cons_neg _ _ _ hrk, find?_cons_neg _ _ _ hxk]
      exact ih
    · have hxb : (x.key == r.key) = false := by simp [hx]
      rw [List.map_cons, if_neg (by simp [hxb])]
      by_cases hxk : (x.key == k) = true
      · rw [find?_cons_pos _ _ _ hxk, find?_cons_pos _ _ _ hxk]
      · have hxk' : ((x.key == k) : Bool) = false := by
          simpa using hxk
        rw [find?_cons_neg _ _ _ hxk', find?_cons_neg _ _ _ hxk']
        exact ih

theorem lookupZ_upsertOne_other (t : List ZRow) (r : ZRow) (k : ZKey) (hk : k ≠ r.key) :
    lookupZ (upsertOne t r) k = lookupZ t k := by
  rw [upsertOne]
  split_ifs with hany
  · exact find?_map_keyNe t r k hk
  · rw [lookupZ, List.find?_append]
    have hone : List.find? (fun x => x.key == k) [r] = none := by
      simp
      exact fun hc => hk hc.symm
    rw [hone]
    simp [lookupZ]

theorem lookupZ_foldl_not_mem (rows : List ZRow) (t : List ZRow) (k : ZKey)
    (h : ∀ r ∈ rows, r.key ≠ k) :
    lookupZ (rows.foldl upsertOne t) k = lookupZ t k := by
  induction rows generalizing t with
  | nil => rfl
  | cons r rs ih =>
    rw [List.foldl_cons]
    rw [ih (upsertOne t r) (fun x hx => h x (List.mem_cons_of_mem _ hx))]
    exact lookupZ_upsertOne_other t r k (fun hc => h r (List.mem_cons_self _ _) hc.symm)

/-- C9: given the same Z_SELECT batch, replace mode and upsert mode store
exactly the same row under every primary key produced by the computation:
they differ only in what happens to keys that exist solely in the prior
contents of the destination. -/
theorem c9_replace_upsert_agree (prior rows : List ZRow) (k : ZKey)
    (hnodup : (rows.map (fun r => r.key)).Nodup)
    (hk : ∃ r ∈ rows, r.key = k) :
    lookupZ (build_z_upsert prior rows) k = lookupZ (build_z_replace prior rows) k := by
  induction rows generalizing prior with
  | nil =>
    rcases hk with ⟨r, hr, _⟩
    exact absurd hr (List.not_mem_nil r)
  | cons r rs ih =>
    rw [List.map_cons, List.nodup_cons] at hnodup
    obtain ⟨hhead, htail⟩ := hnodup
    rcases hk with ⟨r', hr', rfl⟩
    rcases List.mem_cons.mp hr' with rfl | hmem
    · have hnot : ∀ x ∈ rs, x.key ≠ r'.key := by
        intro x hx hc
        exact hhead (hc ▸ List.mem_map_of_mem (fun y => y.key) hx)
      rw [build_z_upsert, List.foldl_cons]
      rw [lookupZ_foldl_not_mem rs (upsertOne prior r') r'.key hnot]
      rw [lookupZ_upsertOne_self]
      rw [build_z_replace, lookupZ, find?_cons_pos _ _ _ (by simp)]
    · have hne : r.key ≠ r'.key := by
        intro hc
        exact hhead (hc ▸ List.mem_map_of_mem (fun y => y.key) hmem)
      rw [build_z_upsert, List.foldl_cons]
      have hih := ih (upsertOne prior r) htail ⟨r', hmem, rfl⟩
      rw [build_z_upsert] at hih
      rw [hih]
      show lookupZ rs r'.key = lookupZ (r :: rs) r'.key
      rw [lookupZ, lookupZ, find?_cons_neg _ _ _ (by simp [hne])]

def zKeyA : ZKey := ⟨"a", 2012, 0⟩
def zKeyB : ZKey := ⟨"b", 2015, 1⟩
def zKeyC : ZKey := ⟨"c", 2018, 2⟩

def zRowOf (k : ZKey) (sy : Int) : ZRow :=
  ⟨k, some "C", sy, "12-13", some 27, some 50, none, none, none, none, none, none⟩

theorem c9_replace_upsert_agree_witness :
    lookupZ (build_z_upsert [zRowOf zKeyA 2012] [zRowOf zKeyB 2015, zRowOf zKeyC 2018]) zKeyB
      = lookupZ (build_z_replace [zRowOf zKeyA 2012] [zRowOf zKeyB 2015, zRowOf zKeyC 2018]) zKeyB := by
  exact c9_replace_upsert_agree [zRowOf zKeyA 2012] [zRowOf zKeyB 2015, zRowOf zKeyC 2018]
    zKeyB (by decide) ⟨zRowOf zKeyB 2015, by simp, rfl⟩

/-! ## Season collapser (build_ref_hockey.fix_std_one_file)

A standard-file row after column coercion: the key columns player/season/tm,
the categorical pos (astype(str) makes it a total string, so a missing
position is the literal string "NAN" rather than a null), the numeric
columns (toi_seconds_total kept separate because the formatted time string
is recomputed from it), and the derived toi_total_hms string. Pandas NaN in
toi_seconds_total is Option.none: the groupby column sum skips missing
values and an all-missing group sums to 0. The remaining numeric columns are
modelled as present values, where the pandas column sum is the plain sum.
The embedding covers frames whose required columns resolved, the only case
in which the source collapses at all (otherwise it logs and returns the
input unchanged). Group traversal order differs from the pandas sorted-key
order; every claim settled below is insensitive to row order. -/

structure StdRow where
  player : String
  season : String
  tm : String
  pos : String
  toi_seconds_total : Option ℚ
  stats : List ℚ
  toi_total_hms : String
deriving DecidableEq

/-- re.sub(r"\s+", " ", s): runs of whitespace become a single space. -/
def collapseSpacesAux : Bool → List Char → List Char
  | _, [] => []
  | inWs, c :: cs =>
      if c.isWhitespace then
        if inWs then collapseSpacesAux true cs else ' ' :: collapseSpacesAux true cs
      else c :: collapseSpacesAux false cs

def collapseSpaces (l : List Char) : List Char := collapseSpacesAux false l

/-- str.rstrip(): drop trailing whitespace. -/
def rstrip (l : List Char) : List Char := (l.reverse.dropWhile Char.isWhitespace).reverse

/-- Player key normalization: collapse whitespace, rstrip, lowercase. -/
def normPlayer (s : String) : String :=
  ⟨(rstrip (collapseSpaces s.data)).map Char.toLower⟩

/-- tm / pos normalization: rstrip, uppercase. -/
def normUpper (s : String) : String := ⟨(rstrip s.data).map Char.toUpper⟩

/-- Season normalization: rstrip. -/
def normSeason (s : String) : String := ⟨rstrip s.data⟩

/-- _post_name_normalization (and the identical tidy step of the column
coercion) on one row. -/
def normRow (r : StdRow) : StdRow :=
  { r with player := normPlayer r.player, tm := normUpper r.tm,
           pos := normUpper r.pos, season := normSeason r.season }

/-- _NTM_RE = ^\d+TM$: one or more digits then TM, nothing else. The regex
is compiled IGNORECASE, but it is only ever matched against the uppercased
tm column, so the uppercase form suffices. -/
def isNTM (l : List Char) : Bool :=
  let ds := l.takeWhile Char.isDigit
  decide (ds ≠ []) && decide (l.drop ds.length = ['T', 'M'])

/-- The groupby key: (player, season). -/
def stdKey (r : StdRow) : String × String := (r.player, r.season)

/-- The rows of one (player, season) group, in frame order. -/
def groupOf (rows : List StdRow) (k : String × String) : List StdRow :=
  rows.filter (fun r => stdKey r == k)

/-- The distinct (player, season) keys, in first-appearance order. -/
def keysOf (rows : List StdRow) : List (String × String) :=
  (rows.map stdKey).dedup

/-- Pass 1 on one group: keep exactly the first nTM row relabelled TOT, or
keep the whole group for Pass 2. -/
def pass1Group (g : List StdRow) : List StdRow :=
  match g.find? (fun r => isNTM r.tm.data) with
  | some r => [{ r with tm := "TOT" }]
  | none => g

/-- Pass 1 over all groups. -/
def pass1 (rows : List StdRow) : List StdRow :=
  (keysOf rows).flatMap (fun k => pass1Group (groupOf rows k))

/-- Python string comparison (lexicographic on code points), as pandas uses
to sort object values ascending. -/
def charListLt : List Char → List Char → Bool
  | [], [] => false
  | [], _ :: _ => true
  | _ :: _, [] => false
  | a :: as, b :: bs =>
      if a.toNat < b.toNat then true
      else if b.toNat < a.toNat then false
      else charListLt as bs

def strLt (s t : String) : Bool := charListLt s.data t.data

/-- _mode_or_first: pandas Series.mode() lists the most frequent values
sorted ascending and .iloc[0] takes the smallest; an empty input falls back
to the first non-null value, or NaN. -/
def _mode_or_first (l : List String) : Option String :=
  match l with
  | [] => none
  | v :: _ =>
      let cands := l.dedup
      let maxCnt := (cands.map (fun x => l.count x)).foldl max 0
      let modes := cands.filter (fun x => l.count x == maxCnt)
      some (modes.foldl (fun a b => if strLt b a then b else a) (modes.headD v))

/-- The spec's wording of the categorical aggregation: the most frequent
value, ties broken by FIRST OCCURRENCE in the group. -/
def modeFirstOccurrence (l : List String) : Option String :=
  match l with
  | [] => none
  | v :: _ =>
      let maxCnt := (l.dedup.map (fun x => l.count x)).foldl max 0
      some ((l.find? (fun x => l.count x == maxCnt)).getD v)

/-- Decimal digits of a natural number (Python str). -/
def natToChars (n : Nat) : List Char := Nat.toDigits 10 n

/-- Python str(n) for an integer. -/
def intToChars (n : Int) : List Char :=
  if n < 0 then '-' :: natToChars n.natAbs else natToChars n.toNat

/-- Python f-string 02d padding (the minute/second fields are 0..59). -/
def pad2 (n : Int) : List Char :=
  if 0 ≤ n ∧ n < 10 then '0' :: natToChars n.toNat else intToChars n

/-- time_utils.seconds_to_hms: "H:MM:SS" with Python divmod (floor)
semantics. -/
def seconds_to_hms (x : Int) : String :=
  let h := Int.ediv x 3600
  let r := Int.emod x 3600
  let m := Int.ediv r 60
  let s := Int.emod r 60
  ⟨intToChars h ++ ':' :: pad2 m ++ ':' :: pad2 s⟩

/-- Python int() truncation toward zero on an exact rational. -/
def truncQ (q : ℚ) : Int := Int.tdiv q.num q.den

/-- Pandas sum of the toi_seconds_total column over a group: missing values
are skipped, an all-missing column sums to 0. -/
def sumToi (g : List StdRow) : ℚ := (g.map (fun r => r.toi_seconds_total.getD 0)).sum

/-- Element-wise (per numeric column) sum over the group's rows. -/
def sumStats : List (List ℚ) → List ℚ
  | [] => []
  | l :: rest => rest.foldl (fun acc x => acc.zipWith (· + ·) x) l

/-- The synthetic TOT row of Pass 2 for one multi-team group: sum the
numeric columns, take the mode (smallest on ties) of pos, relabel tm as TOT
and recompute the formatted time string from the summed seconds. -/
def aggGroup (g : List StdRow) (k : String × String) : StdRow :=
  { player := k.1, season := k.2, tm := "TOT",
    pos := (_mode_or_first (g.map (fun r => r.pos))).getD "",
    toi_seconds_total := some (sumToi g),
    stats := sumStats (g.map (fun r => r.stats)),
    toi_total_hms := seconds_to_hms (truncQ (sumToi g)) }

/-- Whether the (player, season) key still has more than one row. -/
def isMulti (rows : List StdRow) (k : String × String) : Bool :=
  decide (1 < (groupOf rows k).length)

/-- Pass 2: rows of singleton groups stay (in frame order, the e_unique
side of the concat) and every remaining multi-row group is replaced by its
synthetic TOT row (the agg_df side, appended after). -/
def pass2 (rows : List StdRow) : List StdRow :=
  (rows.filter (fun r => !(isMulti rows (stdKey r))))
    ++ ((keysOf rows).filter (fun k => isMulti rows k)).map
        (fun k => aggGroup (groupOf rows k) k)

/-- drop_duplicates(subset=["player","season"], keep="first"). -/
def dropDuplicatesByKey : List StdRow → List StdRow
  | [] => []
  | r :: rs =>
      r :: dropDuplicatesByKey (rs.filter (fun x => !(stdKey x == stdKey r)))
termination_by l => l.length
decreasing_by
  simp only [List.length_cons]
  exact Nat.lt_succ_of_le (List.length_filter_le _ _)

/-- The frame entering Pass 1: season column set on every row, keys
normalized. -/
def normInput (rows : List StdRow) (season_str : String) : List StdRow :=
  rows.map (fun r => normRow { r with season := season_str })

/-- fix_std_one_file: set the season column on every row, normalize the key
columns, run Pass 1 (keep the first nTM row as TOT), Pass 2 (aggregate the
remaining multi-row groups to synthetic TOT rows) and the final
drop_duplicates safety net. -/
def fix_std_one_file (rows : List StdRow) (season_str : String) : List StdRow :=
  if rows.isEmpty then []
  else dropDuplicatesByKey (pass2 (pass1 (normInput rows season_str)))

theorem mem_dropDuplicatesByKey (l : List StdRow) (x : StdRow) :
    x ∈ dropDuplicatesByKey l → x ∈ l := by
  induction l using dropDuplicatesByKey.induct with
  | case1 =>
    intro hx
    rw [dropDuplicatesByKey] at hx
    exact hx
  | case2 r rs ih =>
    intro hx
    rw [dropDuplicatesByKey] at hx
    rcases List.mem_cons.mp hx with rfl | hx'
    · exact List.mem_cons_self _ _
    · exact List.mem_cons_of_mem _ (List.mem_filter.mp (ih hx')).1

theorem nodup_keys_dropDuplicatesByKey (l : List StdRow) :
    ((dropDuplicatesByKey l).map stdKey).Nodup := by
  induction l using dropDuplicatesByKey.induct with
  | case1 => rw [dropDuplicatesByKey]; simp
  | case2 r rs ih =>
    rw [dropDuplicatesByKey, List.map_cons, List.nodup_cons]
    refine ⟨?_, ih⟩
    intro hmem
    obtain ⟨x, hx, hkey⟩ := List.mem_map.mp hmem
    have hx' := mem_dropDuplicatesByKey _ _ hx
    have hne := (List.mem_filter.mp hx').2
    simp only [Bool.not_eq_true', beq_eq_false_iff_ne, ne_eq] at hne
    exact hne hkey

/-- C1: for every input frame and season label, the collapser output has at
most one row per (player, season): the list of keys carries no duplicate. -/
theorem c1_collapser_unique_keys (rows : List StdRow) (season_str : String) :
    ((fix_std_one_file rows season_str).map stdKey).Nodup := by
  by_cases hrows : rows.isEmpty = true
  · rw [fix_std_one_file, if_pos hrows]
    simp
  · rw [fix_std_one_file, if_neg hrows]
    exact nodup_keys_dropDuplicatesByKey _

theorem groupOf_key (rows : List StdRow) (k : String × String) :
    ∀ r ∈ groupOf rows k, stdKey r = k := by
  intro r hr
  have h := (List.mem_filter.mp hr).2
  simpa using h

theorem pass1Group_key_mem (g : List StdRow) (k : String × String)
    (hg : ∀ r ∈ g, stdKey r = k) : ∀ r ∈ pass1Group g, stdKey r = k := by
  intro r hr
  cases hfind : g.find? (fun x => isNTM x.tm.data) with
  | none =>
    simp only [pass1Group, hfind] at hr
    exact hg r hr
  | some x =>
    simp only [pass1Group, hfind, List.mem_singleton] at hr
    subst hr
    have hx := hg x (List.mem_of_find?_eq_some hfind)
    simpa [stdKey] using hx

theorem groupOf_eq_nil_of_not_mem (rows : List StdRow) (k : String × String)
    (hk : k ∉ keysOf rows) : groupOf rows k = [] := by
  rw [groupOf, List.filter_eq_nil]
  intro r hr
  simp only [beq_iff_eq]
  intro hc
  exact hk (by rw [keysOf, List.mem_dedup]; exact hc ▸ List.mem_map_of_mem stdKey hr)

theorem flatMap_groups_filter (rows : List StdRow) (k : String × String)
    (ks : List (String × String)) (hnodup : ks.Nodup) :
    (ks.flatMap (fun q => pass1Group (groupOf rows q))).filter (fun r => stdKey r == k)
      = if k ∈ ks then pass1Group (groupOf rows k) else [] := by
  induction ks with
  | nil => simp
  | cons q qs ih =>
    rw [List.nodup_cons] at hnodup
    rw [List.flatMap_cons, List.filter_append, ih hnodup.2]
    by_cases hq : q = k
    · subst hq
      have hall : (pass1Group (groupOf rows q)).filter (fun r => stdKey r == q)
          = pass1Group (groupOf rows q) :=
        List.filter_eq_self.mpr (fun r hr => by
          simp [pass1Group_key_mem _ _ (groupOf_key rows q) r hr])
      rw [hall, if_neg hnodup.1, if_pos (List.mem_cons_self _ _)]
      simp
    · have hnone : (pass1Group (groupOf rows q)).filter (fun r => stdKey r == k) = [] := by
        rw [List.filter_eq_nil]
        intro r hr
        have hkey := pass1Group_key_mem _ _ (groupOf_key rows q) r hr
        simp [hkey, hq]
      rw [hnone, List.nil_append]
      by_cases hkq : k ∈ qs
      · rw [if_pos hkq, if_pos (List.mem_cons_of_mem _ hkq)]
      · rw [if_neg hkq, if_neg ?_]
        intro hc
        rcases List.mem_cons.mp hc with hc' | hc'
        · exact hq hc'.symm
        · exact hkq hc'

theorem pass1_filter_key (rows : List StdRow) (k : String × String) :
    (pass1 rows).filter (fun r => stdKey r == k) = pass1Group (groupOf rows k) := by
  rw [pass1, flatMap_groups_filter rows k (keysOf rows) (List.nodup_dedup _)]
  by_cases hk : k ∈ keysOf rows
  · rw [if_pos hk]
  · rw [if_neg hk, groupOf_eq_nil_of_not_mem rows k hk]
    rfl

theorem stdKey_aggGroup (g : List StdRow) (k : String × String) :
    stdKey (aggGroup g k) = k := rfl

theorem isMulti_mem_keys (rows : List StdRow) (k : String × String)
    (h : isMulti rows k = true) : k ∈ keysOf rows := by
  rw [isMulti, decide_eq_true_eq] at h
  have hpos : 0 < (groupOf rows k).length := lt_trans Nat.zero_lt_one h
  obtain ⟨r, hr⟩ := List.exists_mem_of_length_pos hpos
  rw [keysOf, List.mem_dedup]
  exact (groupOf_key rows k r hr) ▸ List.mem_map_of_mem stdKey (List.mem_filter.mp hr).1

theorem map_agg_filter (rows : List StdRow) (k : String × String)
    (mk : List (String × String)) (hnodup : mk.Nodup) :
    ((mk.map (fun q => aggGroup (groupOf rows q) q)).filter (fun r => stdKey r == k))
      = if k ∈ mk then [aggGroup (groupOf rows k) k] else [] := by
  induction mk with
  | nil => simp
  | cons q qs ih =>
    rw [List.nodup_cons] at hnodup
    rw [List.map_cons, List.filter_cons]
    by_cases hq : q = k
    · subst hq
      rw [if_pos (by simp [stdKey_aggGroup]), ih hnodup.2, if_neg hnodup.1,
        if_pos (List.mem_cons_self _ _)]
    · rw [if_neg (by simp [stdKey_aggGroup, hq]), ih hnodup.2]
      by_cases hkq : k ∈ qs
      · rw [if_pos hkq, if_pos (List.mem_cons_of_mem _ hkq)]
      · rw [if_neg hkq, if_neg ?_]
        intro hc
        rcases List.mem_cons.mp hc with hc' | hc'
        · exact hq hc'.symm
        · exact hkq hc'

theorem pass2_filter_key (rows : List StdRow) (k : String × String) :
    (pass2 rows).filter (fun r => stdKey r == k)
      = if isMulti rows k then [aggGroup (groupOf rows k) k] else groupOf rows k := by
  rw [pass2, List.filter_append]
  have h2 : (((keysOf rows).filter (fun q => isMulti rows q)).map
        (fun q => aggGroup (groupOf rows q) q)).filter (fun r => stdKey r == k)
      = if isMulti rows k then [aggGroup (groupOf rows k) k] else [] := by
    rw [map_agg_filter rows k ((keysOf rows).filter (fun q => isMulti rows q))
        (List.Nodup.filter _ (List.nodup_dedup _))]
    by_cases hm : isMulti rows k = true
    · rw [if_pos (List.mem_filter.mpr ⟨isMulti_mem_keys rows k hm, hm⟩), if_pos hm]
    · rw [if_neg (fun hmem => hm (List.mem_filter.mp hmem).2), if_neg hm]
  have h1 : (rows.filter (fun r => !(isMulti rows (stdKey r)))).filter
        (fun r => stdKey r == k)
      = if isMulti rows k then [] else groupOf rows k := by
    by_cases hm : isMulti rows k = true
    · rw [if_pos hm, List.filter_eq_nil]
      intro r hr
      have hmem := List.mem_filter.mp hr
      simp only [beq_iff_eq]
      intro hc
      rw [hc] at hmem
      rw [hm] at hmem
      simpa using hmem.2
    · rw [if_neg hm, groupOf, List.filter_comm]
      apply List.filter_eq_self.mpr
      intro r hr
      have hk := (List.mem_filter.mp hr).2
      have hk' : stdKey r = k := by simpa using hk
      rw [hk']
      simp [Bool.eq_false_iff.mpr hm]
  rw [h1, h2]
  by_cases hm : isMulti rows k = true
  · rw [if_pos hm, if_pos hm, if_pos hm, List.nil_append]
  · have hm' : isMulti rows k = false := Bool.eq_false_iff.mpr hm
    rw [if_neg hm, if_neg hm, if_neg hm, List.append_nil]

theorem dropDup_nil : dropDuplicatesByKey ([] : List StdRow) = [] := by
  rw [dropDuplicatesByKey]

theorem dropDup_filter_key (l : List StdRow) (k : String × String) :
    (dropDuplicatesByKey l).filter (fun r => stdKey r == k)
      = dropDuplicatesByKey (l.filter (fun r => stdKey r == k)) := by
  induction l using dropDuplicatesByKey.induct with
  | case1 => rw [dropDup_nil, List.filter_nil, dropDup_nil]
  | case2 r rs ih =>
    rw [dropDuplicatesByKey]
    by_cases hk : stdKey r = k
    · have hnil : (rs.filter (fun x => !(stdKey x == stdKey r))).filter
          (fun x => stdKey x == k) = [] := by
        rw [List.filter_eq_nil]
        intro x hx
        have hmem := List.mem_filter.mp hx
        simp only [Bool.not_eq_true', beq_eq_false_iff_ne, ne_eq] at hmem
        simp only [beq_iff_eq]
        intro hc
        exact hmem.2 (by rw [hc, hk])
      have hnil2 : (rs.filter (fun x => stdKey x == k)).filter
          (fun x => !(stdKey x == stdKey r)) = [] := by
        rw [List.filter_eq_nil]
        intro x hx
        have hmem := List.mem_filter.mp hx
        have hxk : stdKey x = k := by simpa using hmem.2
        simp [hxk, hk]
      calc (r :: dropDuplicatesByKey
              (rs.filter (fun x => !(stdKey x == stdKey r)))).filter
            (fun x => stdKey x == k)
          = r :: ((dropDuplicatesByKey
              (rs.filter (fun x => !(stdKey x == stdKey r)))).filter
                (fun x => stdKey x == k)) := by
            rw [List.filter_cons, if_pos (by simp [hk])]
        _ = r :: dropDuplicatesByKey
              ((rs.filter (fun x => !(stdKey x == stdKey r))).filter
                (fun x => stdKey x == k)) := by rw [ih]
        _ = [r] := by rw [hnil, dropDup_nil]
        _ = r :: dropDuplicatesByKey
              ((rs.filter (fun x => stdKey x == k)).filter
                (fun x => !(stdKey x == stdKey r))) := by rw [hnil2, dropDup_nil]
        _ = dropDuplicatesByKey (r :: rs.filter (fun x => stdKey x == k)) := by
            rw [dropDuplicatesByKey]
        _ = dropDuplicatesByKey ((r :: rs).filter (fun x => stdKey x == k)) := by
            rw [List.filter_cons, if_pos (by simp [hk])]
    · have hcomm : (rs.filter (fun x => !(stdKey x == stdKey r))).filter
          (fun x => stdKey x == k)
          = rs.filter (fun x => stdKey x == k) := by
        rw [List.filter_comm]
        apply List.filter_eq_self.mpr
        intro x hx
        have hxk : stdKey x = k := by simpa using (List.mem_filter.mp hx).2
        simp only [Bool.not_eq_true', beq_eq_false_iff_ne, ne_eq, hxk]
        intro hc
        exact hk hc.symm
      calc (r :: dropDuplicatesByKey
              (rs.filter (fun x => !(stdKey x == stdKey r)))).filter
            (fun x => stdKey x == k)
          = (dropDuplicatesByKey
              (rs.filter (fun x => !(stdKey x == stdKey r)))).filter
                (fun x => stdKey x == k) := by
            rw [List.filter_cons, if_neg (by simp [hk])]
        _ = dropDuplicatesByKey
              ((rs.filter (fun x => !(stdKey x == stdKey r))).filter
                (fun x => stdKey x == k)) := by rw [ih]
        _ = dropDuplicatesByKey (rs.filter (fun x => stdKey x == k)) := by rw [hcomm]
        _ = dropDuplicatesByKey ((r :: rs).filter (fun x => stdKey x == k)) := by
            rw [List.filter_cons, if_neg (by simp [hk])]

theorem dropDup_singleton (x : StdRow) : dropDuplicatesByKey [x] = [x] := by
  rw [dropDuplicatesByKey]
  simp [dropDuplicatesByKey]

/-- The collapsed output for a group whose first nTM row is x: exactly that
row, relabelled TOT, everything else verbatim. -/
theorem fix_std_filter_ntm (rows : List StdRow) (season_str : String)
    (k : String × String) (x : StdRow)
    (hfind : (groupOf (normInput rows season_str) k).find?
        (fun r => isNTM r.tm.data) = some x) :
    (fix_std_one_file rows season_str).filter (fun r => stdKey r == k)
      = [{ x with tm := "TOT" }] := by
  have hne : rows.isEmpty = false := by
    cases rows with
    | nil => simp [normInput, groupOf] at hfind
    | cons a as => rfl
  rw [fix_std_one_file, if_neg (by simp [hne]), dropDup_filter_key, pass2_filter_key]
  have hgroup : groupOf (pass1 (normInput rows season_str)) k = [{ x with tm := "TOT" }] := by
    rw [groupOf, pass1_filter_key]
    simp only [pass1Group, hfind]
  have hmulti : isMulti (pass1 (normInput rows season_str)) k = false := by
    rw [isMulti, hgroup]
    rfl
  rw [hmulti, if_neg (by simp), hgroup, dropDup_singleton]

/-- The collapsed output for a multi-row group with no nTM row: exactly the
synthetic TOT aggregation row. -/
theorem fix_std_filter_agg (rows : List StdRow) (season_str : String)
    (k : String × String)
    (hrows : rows.isEmpty = false)
    (hfind : (groupOf (normInput rows season_str) k).find?
        (fun r => isNTM r.tm.data) = none)
    (hlen : 2 ≤ (groupOf (normInput rows season_str) k).length) :
    (fix_std_one_file rows season_str).filter (fun r => stdKey r == k)
      = [aggGroup (groupOf (normInput rows season_str) k) k] := by
  rw [fix_std_one_file, if_neg (by simp [hrows]), dropDup_filter_key, pass2_filter_key]
  have hgroup : groupOf (pass1 (normInput rows season_str)) k
      = groupOf (normInput rows season_str) k := by
    rw [groupOf, pass1_filter_key]
    simp only [pass1Group, hfind]
  have hmulti : isMulti (pass1 (normInput rows season_str)) k = true := by
    rw [isMulti, hgroup, decide_eq_true_eq]
    omega
  rw [hmulti, if_pos rfl, hgroup, dropDup_singleton]

theorem foldl_max_le (xs : List Nat) (a : Nat) :
    a ≤ xs.foldl max a ∧ ∀ x ∈ xs, x ≤ xs.foldl max a := by
  induction xs generalizing a with
  | nil => exact ⟨le_refl a, by simp⟩
  | cons b bs ih =>
    rw [List.foldl_cons]
    obtain ⟨h1, h2⟩ := ih (max a b)
    refine ⟨le_trans (le_max_left a b) h1, ?_⟩
    intro x hx
    rcases List.mem_cons.mp hx with rfl | hx
    · exact le_trans (le_max_right a x) h1
    · exact h2 x hx

theorem foldl_max_mem (xs : List Nat) (a : Nat) :
    xs.foldl max a = a ∨ xs.foldl max a ∈ xs := by
  induction xs generalizing a with
  | nil => left; rfl
  | cons b bs ih =>
    rw [List.foldl_cons]
    rcases ih (max a b) with h | h
    · rw [h]
      rcases Nat.le_total a b with hab | hba
      · right; rw [Nat.max_eq_right hab]; exact List.mem_cons_self _ _
      · left; rw [Nat.max_eq_left hba]
    · right; exact List.mem_cons_of_mem _ h

theorem charListLt_irrefl (l : List Char) : charListLt l l = false := by
  induction l with
  | nil => rfl
  | cons c cs ih => simp [charListLt, ih]

theorem strLt_irrefl (s : String) : strLt s s = false := charListLt_irrefl s.data

theorem charListLt_trans (a : List Char) : ∀ b c : List Char,
    charListLt a b = true → charListLt b c = true → charListLt a c = true := by
  induction a with
  | nil =>
    intro b c h1 h2
    cases b with
    | nil => exact absurd h1 (by simp [charListLt])
    | cons y ys =>
      cases c with
      | nil => exact absurd h2 (by simp [charListLt])
      | cons z zs => simp [charListLt]
  | cons x xs ih =>
    intro b c h1 h2
    cases b with
    | nil => exact absurd h1 (by simp [charListLt])
    | cons y ys =>
      cases c with
      | nil => exact absurd h2 (by simp [charListLt])
      | cons z zs =>
        rw [charListLt] at h1 h2 ⊢
        by_cases hxy : x.toNat < y.toNat
        · by_cases hyz : y.toNat < z.toNat
          · rw [if_pos (by omega)]
          · by_cases hzy : z.toNat < y.toNat
            · rw [if_neg hyz, if_pos hzy] at h2
              exact absurd h2 (by simp)
            · rw [if_pos (by omega)]
        · by_cases hyx : y.toNat < x.toNat
          · rw [if_neg hxy, if_pos hyx] at h1
            exact absurd h1 (by simp)
          · by_cases hyz : y.toNat < z.toNat
            · rw [if_pos (by omega)]
            · by_cases hzy : z.toNat < y.toNat
              · rw [if_neg hyz, if_pos hzy] at h2
                exact absurd h2 (by simp)
              · rw [if_neg (by omega), if_neg (by omega)]
                exact ih ys zs (by rwa [if_neg hxy, if_neg hyx] at h1)
                  (by rwa [if_neg hyz, if_neg hzy] at h2)

theorem strLt_trans (a b c : String) (h1 : strLt a b = true) (h2 : strLt b c = true) :
    strLt a c = true := charListLt_trans a.data b.data c.data h1 h2

theorem charListLt_connex (a : List Char) : ∀ b : List Char,
    charListLt a b = false → charListLt b a = false → a = b := by
  induction a with
  | nil =>
    intro b h1 _
    cases b with
    | nil => rfl
    | cons y ys => exact absurd h1 (by simp [charListLt])
  | cons x xs ih =>
    intro b h1 h2
    cases b with
    | nil => exact absurd h2 (by simp [charListLt])
    | cons y ys =>
      rw [charListLt] at h1 h2
      by_cases hxy : x.toNat < y.toNat
      · rw [if_pos hxy] at h1
        exact absurd h1 (by simp)
      · by_cases hyx : y.toNat < x.toNat
        · rw [if_pos hyx] at h2
          exact absurd h2 (by simp)
        · have hval : x = y := by
            have hn : x.toNat = y.toNat := by omega
            exact Char.eq_of_val_eq (UInt32.ext hn)
          subst hval
          rw [if_neg hxy, if_neg hyx] at h1 h2
          rw [ih ys h1 h2]

theorem strLt_connex (a b : String) (h1 : strLt a b = false) (h2 : strLt b a = false) :
    a = b := by
  have hdata := charListLt_connex a.data b.data h1 h2
  cases a
  cases b
  exact congrArg String.mk hdata

theorem foldl_minStr_spec (xs : List String) (a : String) :
    (xs.foldl (fun u v => if strLt v u then v else u) a = a
        ∨ xs.foldl (fun u v => if strLt v u then v else u) a ∈ xs)
    ∧ strLt a (xs.foldl (fun u v => if strLt v u then v else u) a) = false
    ∧ ∀ x ∈ xs, strLt x (xs.foldl (fun u v => if strLt v u then v else u) a) = false := by
  induction xs generalizing a with
  | nil => exact ⟨Or.inl rfl, strLt_irrefl a, by simp⟩
  | cons b bs ih =>
    rw [List.foldl_cons]
    obtain ⟨hm, hinit, hall⟩ := ih (if strLt b a then b else a)
    have hres_ne_a_lt : strLt a (bs.foldl (fun u v => if strLt v u then v else u)
        (if strLt b a then b else a)) = false := by
      by_cases hba : strLt b a = true
      · rw [if_pos hba] at hinit
        by_cases hcontra : strLt a (bs.foldl (fun u v => if strLt v u then v else u)
            (if strLt b a then b else a)) = true
        · rw [if_pos hba] at hcontra
          have := strLt_trans b a _ hba hcontra
          rw [this] at hinit
          exact absurd hinit (by simp)
        · rw [if_pos hba] at hcontra ⊢
          exact Bool.eq_false_iff.mpr hcontra
      · have hba' : strLt b a = false := Bool.eq_false_iff.mpr hba
        rw [if_neg hba] at hinit ⊢
        exact hinit
    have hres_ne_b_lt : strLt b (bs.foldl (fun u v => if strLt v u then v else u)
        (if strLt b a then b else a)) = false := by
      by_cases hba : strLt b a = true
      · rw [if_pos hba] at hinit ⊢
        exact hinit
      · have hba' : strLt b a = false := Bool.eq_false_iff.mpr hba
        rw [if_neg hba] at hinit ⊢
        by_cases hcontra : strLt b (bs.foldl (fun u v => if strLt v u then v else u) a) = true
        · by_cases hfa : strLt (bs.foldl (fun u v => if strLt v u then v else u) a) a = true
          · have := strLt_trans b _ a hcontra hfa
            rw [this] at hba'
            exact absurd hba' (by simp)
          · have heq := strLt_connex _ a (Bool.eq_false_iff.mpr hfa) hinit
            rw [heq] at hcontra
            rw [hcontra] at hba'
            exact absurd hba' (by simp)
        · exact Bool.eq_false_iff.mpr hcontra
    refine ⟨?_, ?_, ?_⟩
    · rcases hm with hm | hm
      · rw [hm]
        by_cases hba : strLt b a = true
        · rw [if_pos hba]
          right
          exact List.mem_cons_self _ _
        · rw [if_neg hba]
          left
          rfl
      · right
        exact List.mem_cons_of_mem _ hm
    · by_cases hba : strLt b a = true
      · rw [if_pos hba] at hres_ne_a_lt ⊢
        exact hres_ne_a_lt
      · rw [if_neg hba] at hres_ne_a_lt ⊢
        exact hres_ne_a_lt
    · intro x hx
      rcases List.mem_cons.mp hx with rfl | hx
      · by_cases hba : strLt x a = true
        · rw [if_pos hba] at hres_ne_b_lt ⊢
          exact hres_ne_b_lt
        · rw [if_neg hba] at hres_ne_b_lt ⊢
          exact hres_ne_b_lt
      · exact hall x hx

theorem mode_or_first_spec (l : List String) (v : String)
    (h : _mode_or_first l = some v) :
    v ∈ l
    ∧ (∀ x ∈ l, l.count x ≤ l.count v)
    ∧ (∀ x ∈ l, l.count x = l.count v → strLt x v = false) := by
  cases l with
  | nil => exact absurd h (by simp [_mode_or_first])
  | cons a as =>
    simp only [_mode_or_first, Option.some.injEq] at h
    set L := a :: as with hLdef
    set M := (L.dedup.map (fun x => L.count x)).foldl max 0 with hM
    set modes := L.dedup.filter (fun x => L.count x == M) with hmodesdef
    have haL : a ∈ L := by rw [hLdef]; exact List.mem_cons_self a as
    have hle : ∀ x ∈ L, L.count x ≤ M := by
      intro x hx
      have hxd : x ∈ L.dedup := List.mem_dedup.mpr hx
      have hxm : L.count x ∈ L.dedup.map (fun y => L.count y) :=
        List.mem_map_of_mem _ hxd
      exact (foldl_max_le _ 0).2 _ hxm
    have hattain : ∃ c ∈ L.dedup, L.count c = M := by
      rcases foldl_max_mem (L.dedup.map (fun y => L.count y)) 0 with h0 | hmem
      · exfalso
        have ha1 : 0 < L.count a := List.count_pos_iff_mem.mpr haL
        have := hle a haL
        rw [← hM] at h0
        omega
      · rw [← hM] at hmem
        obtain ⟨c, hc, hcnt⟩ := List.mem_map.mp hmem
        exact ⟨c, hc, hcnt⟩
    have hmne : modes ≠ [] := by
      obtain ⟨c, hcd, hcM⟩ := hattain
      intro hnil
      have hcm : c ∈ modes := List.mem_filter.mpr ⟨hcd, by simp [hcM]⟩
      rw [hnil] at hcm
      exact absurd hcm (List.not_mem_nil c)
    obtain ⟨hm, hinit, hall⟩ := foldl_minStr_spec modes (modes.headD a)
    have hvmem : v ∈ modes := by
      rcases hm with hm | hm
      · rw [← h, hm]
        cases hmodes : modes with
        | nil => exact absurd hmodes hmne
        | cons m ms => simp
      · rw [← h]
        exact hm
    have hvfacts := List.mem_filter.mp hvmem
    have hvL : v ∈ L := List.mem_dedup.mp hvfacts.1
    have hvM : L.count v = M := by simpa using hvfacts.2
    refine ⟨hvL, ?_, ?_⟩
    · intro x hx
      rw [hvM]
      exact hle x hx
    · intro x hx hcnt
      have hxmodes : x ∈ modes :=
        List.mem_filter.mpr ⟨List.mem_dedup.mpr hx, by simp [hcnt, hvM]⟩
      rw [← h]
      exact hall x hxmodes

/-! ## Claims C2 and C3 -/

/-- C2 counterexample: the claim includes the literal token TOT in the
aggregate-total pattern, but the code's pattern is ^\d+TM$ only, so a group
with a raw TOT row plus a team row is re-summed (stats become [3]) instead
of keeping the TOT row's fields verbatim (stats [1]). -/
theorem c2_counterexample :
    ((fix_std_one_file
        [⟨"Bob", "", "TOT", "C", some 60, [1], ""⟩,
         ⟨"Bob", "", "BOS", "C", some 120, [2], ""⟩] "13-14").filter
        (fun r => stdKey r == ("bob", "13-14"))).map (fun r => r.stats)
      = [[3]]
    ∧ ([[3]] : List (List ℚ)) ≠ [[1]] := by
  refine ⟨?_, by norm_num⟩
  rw [fix_std_filter_agg _ _ _ (by decide) (by decide) (by decide)]
  show [sumStats [[1], [2]]] = [[3]]
  norm_num [sumStats, List.zipWith]

/-- C2 (amended): the aggregate-total pattern is ^\d+TM$ alone — the literal
token TOT does not match it — and a group whose first pattern row is x is
collapsed to exactly that row with tm relabelled TOT and every other field
verbatim (no re-sum). -/
theorem c2_ntm_row_kept (rows : List StdRow) (season_str : String)
    (k : String × String) (x : StdRow)
    (hfind : (groupOf (normInput rows season_str) k).find?
        (fun r => isNTM r.tm.data) = some x) :
    (fix_std_one_file rows season_str).filter (fun r => stdKey r == k)
        = [{ x with tm := "TOT" }]
    ∧ isNTM ("TOT".data) = false
    ∧ isNTM ("2TM".data) = true
    ∧ isNTM ("3TM".data) = true :=
  ⟨fix_std_filter_ntm rows season_str k x hfind, by decide, by decide, by decide⟩

def c2row1 : StdRow := ⟨"Bob", "", "2TM", "C", some 6000, [5], "1:40:00"⟩
def c2row2 : StdRow := ⟨"Bob", "", "BOS", "C", some 3000, [2], "0:50:00"⟩

theorem c2_ntm_row_kept_witness :
    (fix_std_one_file [c2row1, c2row2] "13-14").filter
        (fun r => stdKey r == ("bob", "13-14"))
      = [{ (⟨"bob", "13-14", "2TM", "C", some 6000, [5], "1:40:00"⟩ : StdRow)
            with tm := "TOT" }] := by
  exact (c2_ntm_row_kept [c2row1, c2row2] "13-14" ("bob", "13-14")
    ⟨"bob", "13-14", "2TM", "C", some 6000, [5], "1:40:00"⟩ (by decide)).1

/-- C3 counterexample: in a two-team group with position values D then C
(a tie), the claim's first-occurrence tie-break demands D, but pandas mode
sorts ascending and the code keeps C. -/
theorem c3_counterexample :
    ((fix_std_one_file
        [⟨"Bob", "", "BOS", "D", some 60, [], ""⟩,
         ⟨"Bob", "", "NYR", "C", some 120, [], ""⟩] "13-14").filter
        (fun r => stdKey r == ("bob", "13-14"))).map (fun r => r.pos)
      = ["C"]
    ∧ modeFirstOccurrence ["D", "C"] = some "D"
    ∧ ("C" : String) ≠ "D" := by
  refine ⟨?_, by decide, by decide⟩
  rw [fix_std_filter_agg _ _ _ (by decide) (by decide) (by decide)]
  decide

/-- C3 (amended): a group with no total-pattern row and at least two rows
collapses to a synthetic row with team TOT, numeric columns summed over the
group, the formatted time string recomputed from the summed seconds, and
the position the group's most frequent value with ties broken by the
smallest value in ascending sort order (pandas mode), not by first
occurrence. -/
theorem c3_synthetic_total (rows : List StdRow) (season_str : String)
    (k : String × String)
    (hrows : rows.isEmpty = false)
    (hfind : (groupOf (normInput rows season_str) k).find?
        (fun r => isNTM r.tm.data) = none)
    (hlen : 2 ≤ (groupOf (normInput rows season_str) k).length) :
    (fix_std_one_file rows season_str).filter (fun r => stdKey r == k)
        = [aggGroup (groupOf (normInput rows season_str) k) k]
    ∧ (aggGroup (groupOf (normInput rows season_str) k) k).tm = "TOT"
    ∧ (aggGroup (groupOf (normInput rows season_str) k) k).stats
        = sumStats ((groupOf (normInput rows season_str) k).map (fun r => r.stats))
    ∧ (aggGroup (groupOf (normInput rows season_str) k) k).toi_seconds_total
        = some (sumToi (groupOf (normInput rows season_str) k))
    ∧ (aggGroup (groupOf (normInput rows season_str) k) k).toi_total_hms
        = seconds_to_hms (truncQ (sumToi (groupOf (normInput rows season_str) k)))
    ∧ ∀ p, _mode_or_first ((groupOf (normInput rows season_str) k).map
          (fun r => r.pos)) = some p →
        (aggGroup (groupOf (normInput rows season_str) k) k).pos = p
        ∧ p ∈ (groupOf (normInput rows season_str) k).map (fun r => r.pos)
        ∧ (∀ q ∈ (groupOf (normInput rows season_str) k).map (fun r => r.pos),
            ((groupOf (normInput rows season_str) k).map (fun r => r.pos)).count q
              ≤ ((groupOf (normInput rows season_str) k).map (fun r => r.pos)).count p)
        ∧ (∀ q ∈ (groupOf (normInput rows season_str) k).map (fun r => r.pos),
            ((groupOf (normInput rows season_str) k).map (fun r => r.pos)).count q
                = ((groupOf (normInput rows season_str) k).map (fun r => r.pos)).count p
              → strLt q p = false) := by
  refine ⟨fix_std_filter_agg rows season_str k hrows hfind hlen, rfl, rfl, rfl, rfl, ?_⟩
  intro p hp
  have hspec := mode_or_first_spec _ p hp
  refine ⟨?_, hspec.1, hspec.2.1, hspec.2.2⟩
  simp [aggGroup, hp]

def c3row1 : StdRow := ⟨"Bob", "", "BOS", "D", some 60, [], ""⟩
def c3row2 : StdRow := ⟨"Bob", "", "NYR", "C", some 120, [], ""⟩

theorem c3_synthetic_total_witness :
    (fix_std_one_file [c3row1, c3row2] "13-14").filter
        (fun r => stdKey r == ("bob", "13-14"))
      = [aggGroup (groupOf (normInput [c3row1, c3row2] "13-14") ("bob", "13-14"))
          ("bob", "13-14")] :=
  (c3_synthetic_total [c3row1, c3row2] "13-14" ("bob", "13-14")
    rfl (by decide) (by decide)).1

end NHL
